import Mathlib

set_option maxRecDepth 8000

/-! Verification model of the agent-messenger repository (identity derivation,
message envelope, contact resolution, daemon send/listen/lock logic).
Python sources: identity.py, agent_v2.py, agentd.py. Byte strings are
modelled as `List Nat` with values below 256; Python dicts that preserve
insertion order are modelled as association lists.
-/

namespace AgentMessenger

/-! Base64: model of Python base64.b64encode / b64decode and the urlsafe variants.

Encoding follows RFC 4648. Decoding models CPython `base64.b64decode` with
`validate=False`, i.e. the non-strict `binascii.a2b_base64` automaton: the
input is scanned once, characters outside the alphabet are skipped, a `=`
seen before two sextets of the current quad is ignored, and once a quad is
completed by padding (two sextets and two `=`, or three sextets and one `=`)
decoding STOPS and every remaining character is ignored; unused low bits of
a padded quad are discarded (non-canonical encodings are accepted); an
unfinished quad left at the end of the input is an error. -/

def b64AlphabetStd : List Char :=
  "ABCDEFGHIJKLMNOPQRSTUVWXYZabcdefghijklmnopqrstuvwxyz0123456789+/".data

def b64AlphabetUrl : List Char :=
  "ABCDEFGHIJKLMNOPQRSTUVWXYZabcdefghijklmnopqrstuvwxyz0123456789-_".data

def alphabetFor (urlsafe : Bool) : List Char :=
  if urlsafe then b64AlphabetUrl else b64AlphabetStd

def charIdx : List Char → Char → Option Nat
  | [], _ => none
  | a :: as, c => if a = c then some 0 else (charIdx as c).map (· + 1)

def sextetChar (u : Bool) (n : Nat) : Char := (alphabetFor u).getD n 'A'

def sextetVal (u : Bool) (c : Char) : Option Nat := charIdx (alphabetFor u) c

def b64EncodeBytes (u : Bool) : List Nat → List Char
  | [] => []
  | [b1] => [sextetChar u (b1 / 4), sextetChar u (b1 % 4 * 16), '=', '=']
  | [b1, b2] => [sextetChar u (b1 / 4), sextetChar u (b1 % 4 * 16 + b2 / 16),
      sextetChar u (b2 % 16 * 4), '=']
  | b1 :: b2 :: b3 :: rest =>
      sextetChar u (b1 / 4) :: sextetChar u (b1 % 4 * 16 + b2 / 16) ::
      sextetChar u (b2 % 16 * 4 + b3 / 64) :: sextetChar u (b3 % 64) ::
      b64EncodeBytes u rest

def b64DecodeLoop (u : Bool) :
    List Char → Nat → Nat → Nat → List Nat → Option (List Nat)
  | [], quadPos, _, _, acc => if quadPos = 0 then some acc else none
  | c :: rest, quadPos, leftchar, pads, acc =>
      if c = '=' then
        if 2 ≤ quadPos ∧ 4 ≤ quadPos + (pads + 1) then some acc
        else if 2 ≤ quadPos then
          b64DecodeLoop u rest quadPos leftchar (pads + 1) acc
        else b64DecodeLoop u rest quadPos leftchar pads acc
      else
        match sextetVal u c with
        | none => b64DecodeLoop u rest quadPos leftchar pads acc
        | some v =>
          match quadPos with
          | 0 => b64DecodeLoop u rest 1 v 0 acc
          | 1 => b64DecodeLoop u rest 2 (v % 16) 0 (acc ++ [leftchar * 4 + v / 16])
          | 2 => b64DecodeLoop u rest 3 (v % 4) 0 (acc ++ [leftchar * 16 + v / 4])
          | _ => b64DecodeLoop u rest 0 0 0 (acc ++ [leftchar * 64 + v])

def b64Decode (u : Bool) (s : List Char) : Option (List Nat) :=
  b64DecodeLoop u s 0 0 0 []

/-! Identity manager: model of identity.py.

`derive_did` embeds `identity.derive_did` (identity.py lines 54-70): urlsafe
base64 of the raw 32 public-key bytes, `'='` padding stripped, behind the
fixed prefix. `get_or_create_identity` embeds `identity.get_or_create_identity`
(lines 73-129) over an abstract two-file store: it loads the persisted DID
string and raw key when both files exist, otherwise generates, derives and
persists. The Ed25519 public-key derivation performed by the `cryptography`
library is abstracted as a function `pubOf` from private- to public-key
bytes, and the freshly generated private key is passed explicitly. -/

def rstripEq (l : List Char) : List Char :=
  (l.reverse.dropWhile (fun c => c = '=')).reverse

def derive_did (pubkeyBytes : List Nat) : String :=
  "did:key:ed25519:" ++ ⟨rstripEq (b64EncodeBytes true pubkeyBytes)⟩

structure IdentityStore where
  identityJson : Option String
  keyFile : Option (List Nat)
deriving DecidableEq

structure IdentityResult where
  privateKey : List Nat
  publicKey : List Nat
  did : String
  store : IdentityStore
deriving DecidableEq

def get_or_create_identity (pubOf : List Nat → List Nat) (freshPriv : List Nat)
    (fs : IdentityStore) : IdentityResult :=
  match fs.identityJson, fs.keyFile with
  | some storedDid, some keyBytes =>
      { privateKey := keyBytes, publicKey := pubOf keyBytes, did := storedDid,
        store := fs }
  | _, _ =>
      let pub := pubOf freshPriv
      let did := derive_did pub
      { privateKey := freshPriv, publicKey := pub, did := did,
        store := { identityJson := some did, keyFile := some freshPriv } }

/-! Envelope codec: model of agent_v2.py Agent.derive_shared_key,
Agent.encrypt_message, Agent.decrypt_message, lines 207-273)

The external libraries called by the source (zlib, HKDF-SHA256,
ChaCha20-Poly1305, UTF-8 codecs) are abstracted as an `EnvLib` record; the
contracts they are assumed to satisfy are stated as explicit propositions
below and discharged concretely on `toyLib` for evaluation. The base64
framing layer is the concrete model above. `nonce12` is the source's fixed
nonce `b'agent-messenger-v2'[:12]`. -/

structure EnvLib where
  compress : List Nat → List Nat
  decompress : List Nat → Option (List Nat)
  hkdfSha256 : List Nat → List Nat
  aeadEncrypt : List Nat → List Nat → List Nat → List Nat
  aeadDecrypt : List Nat → List Nat → List Nat → Option (List Nat)
  utf8Encode : String → List Nat
  utf8Decode : List Nat → Option String

/-- zlib contract: decompression inverts compression. -/
def ZlibRoundTrip (L : EnvLib) : Prop :=
  ∀ x, L.decompress (L.compress x) = some x

/-- AEAD contract: decryption inverts encryption under the same key/nonce. -/
def AeadRoundTrip (L : EnvLib) : Prop :=
  ∀ k n p, L.aeadDecrypt k n (L.aeadEncrypt k n p) = some p

/-- AEAD contract: a ciphertext only decrypts to a plaintext it is the exact
encryption of (true of ChaCha20-Poly1305: the tag is recomputed from the
ciphertext body and compared). -/
def AeadSound (L : EnvLib) : Prop :=
  ∀ k n c p, L.aeadDecrypt k n c = some p → L.aeadEncrypt k n p = c

/-- UTF-8 contract: decoding inverts encoding. -/
def Utf8RoundTrip (L : EnvLib) : Prop :=
  ∀ s, L.utf8Decode (L.utf8Encode s) = some s

def nonce12 : List Nat := ("agent-messenger-v2".data.map Char.toNat).take 12

def derive_shared_key (L : EnvLib) (recipientPub : List Nat) : List Nat :=
  L.hkdfSha256 recipientPub

def encrypt_message (L : EnvLib) (plaintext : String) (recipientPub : List Nat) :
    String :=
  String.mk (b64EncodeBytes false
    (L.aeadEncrypt (derive_shared_key L recipientPub) nonce12
      (L.compress (L.utf8Encode plaintext))))

inductive EnvelopeError
  | badBase64
  | decryptionError
  | badCompression
  | badText
deriving DecidableEq

def decrypt_message (L : EnvLib) (encryptedB64 : String) (senderPub : List Nat) :
    Except EnvelopeError String :=
  match b64Decode false encryptedB64.data with
  | none => .error .badBase64
  | some ciphertext =>
    match L.aeadDecrypt (derive_shared_key L senderPub) nonce12 ciphertext with
    | none => .error .decryptionError
    | some compressed =>
      match L.decompress compressed with
      | none => .error .badCompression
      | some ptBytes =>
        match L.utf8Decode ptBytes with
        | none => .error .badText
        | some pt => .ok pt

/-- Concrete instantiation of the external-library record used to evaluate
theorems about the envelope on explicit inputs; it satisfies all the
contracts above. -/
def toyTag : List Nat := List.replicate 16 7

def toyLib : EnvLib where
  compress := fun x => x
  decompress := fun x => some x
  hkdfSha256 := fun x => x
  aeadEncrypt := fun _ _ p => p ++ toyTag
  aeadDecrypt := fun _ _ c =>
    if 16 ≤ c.length ∧ c.drop (c.length - 16) = toyTag then
      some (c.take (c.length - 16))
    else none
  utf8Encode := fun s => s.data.map Char.toNat
  utf8Decode := fun l => some (String.mk (l.map Char.ofNat))

/-! Contact resolver: model of agent_v2.py Agent.find_contact_by_name,
lines 92-98, and Agent.find_contacts_fuzzy, lines 100-120)

The contact book (a Python dict keyed by DID, insertion-ordered) is an
association list of (did, info). The similarity score is a model of
`difflib.SequenceMatcher(None, a, b).ratio()` for short strings (no junk,
no autojunk): total size of the recursively chosen longest matching blocks,
normalised by the summed lengths; `bestAt` scans all start positions in
ascending order keeping the first strictly-longest block, as difflib does.
Sorting descending by score is the stable insertion sort `sortByScoreDesc`,
matching Python's stable `list.sort(key=..., reverse=True)`. -/

structure ContactInfo where
  name : String
deriving DecidableEq

def lowerStr (s : String) : String := String.mk (s.data.map Char.toLower)

def extLen : List Char → List Char → Nat
  | a :: as, b :: bs => if a = b then extLen as bs + 1 else 0
  | _, _ => 0

def bestStep (a b : List Char) (best : Nat × Nat × Nat) (i j : Nat) :
    Nat × Nat × Nat :=
  let k := extLen (a.drop i) (b.drop j)
  if best.2.2 < k then (i, j, k) else best

def bestAt (a b : List Char) : Nat × Nat × Nat :=
  (List.range a.length).foldl
    (fun acc i =>
      (List.range b.length).foldl (fun acc2 j => bestStep a b acc2 i j) acc)
    (0, 0, 0)

def matchSizeF : Nat → List Char → List Char → Nat
  | 0, _, _ => 0
  | fuel + 1, a, b =>
      if (bestAt a b).2.2 = 0 then 0
      else
        (bestAt a b).2.2 +
        matchSizeF fuel (a.take (bestAt a b).1) (b.take (bestAt a b).2.1) +
        matchSizeF fuel (a.drop ((bestAt a b).1 + (bestAt a b).2.2))
          (b.drop ((bestAt a b).2.1 + (bestAt a b).2.2))

def matchSize (a b : List Char) : Nat := matchSizeF (a.length + b.length) a b

def ratioQ (a b : String) : ℚ :=
  if a.data.length + b.data.length = 0 then 1
  else (2 * matchSize a.data b.data : ℚ)
    / ((a.data.length + b.data.length : Nat) : ℚ)

structure FuzzyMatch where
  did : String
  name : String
  score : ℚ
deriving DecidableEq

def insertByScoreDesc (m : FuzzyMatch) : List FuzzyMatch → List FuzzyMatch
  | [] => [m]
  | y :: ys =>
      if y.score < m.score then m :: y :: ys else y :: insertByScoreDesc m ys

def sortByScoreDesc (l : List FuzzyMatch) : List FuzzyMatch :=
  l.foldl (fun acc m => insertByScoreDesc m acc) []

def rawFuzzyMatches (contacts : List (String × ContactInfo)) (name : String)
    (threshold : ℚ) : List FuzzyMatch :=
  contacts.filterMap (fun p =>
    let r := ratioQ (lowerStr name) (lowerStr p.2.name)
    if threshold ≤ r then some ⟨p.1, p.2.name, r⟩ else none)

def find_contacts_fuzzy (contacts : List (String × ContactInfo)) (name : String)
    (threshold : ℚ) : List FuzzyMatch :=
  sortByScoreDesc (rawFuzzyMatches contacts name threshold)

def find_contact_by_name (contacts : List (String × ContactInfo))
    (name : String) : Option String :=
  (contacts.find? (fun p => lowerStr p.2.name == lowerStr name)).map
    (fun p => p.1)

/-- Descending-score order used by the sort. -/
def scoreGE (x y : FuzzyMatch) : Prop := y.score ≤ x.score

/-- Contact book of the spec's fuzzy-matching example. -/
def demoBook : List (String × ContactInfo) :=
  [("did:key:ed25519:A1", ⟨"Alice"⟩),
   ("did:key:ed25519:A2", ⟨"Alicia"⟩),
   ("did:key:ed25519:B1", ⟨"Bob"⟩)]

/-! Daemon core: model of agentd.py.

`LockState` is the profile's `daemon.lock` file (agentd.py LockFile,
lines 44-83); the liveness probe `os.kill(pid, 0)` is the predicate `alive`
(true = process exists, false = OSError). The /send endpoint
(agentd.py lines 208-288) is `send_message_endpoint`; its registration gate
mirrors the source's `try:`/`except Exception: pass` block literally — the
`HTTPException(403)` raised inside the `try` when the DID is not registered
is itself an `Exception`, so the blanket handler swallows it. The websocket
receive loop (agent_v2.py Agent.listen, lines 354-392) is `listen`; on
`ConnectionClosed` it only logs and returns, mutating nothing. The saved
message filename (agent_v2.py Agent.save_message, lines 394-416) is
`message_filename` for a relay-supplied timestamp. -/

structure LockState where
  lock : Option String
deriving DecidableEq

/-- Whitespace trimming plus digit parsing: models `int(content.strip())`
on the contents the daemon itself writes (decimal digit strings). A
non-numeric content makes `int` raise ValueError, modelled as `none`. -/
def isPyWs (c : Char) : Bool := c = ' ' || c = '\n' || c = '\t' || c = '\r'

def parsePid (content : String) : Option Nat :=
  let t := ((content.data.dropWhile isPyWs).reverse.dropWhile isPyWs).reverse
  if t ≠ [] ∧ t.all Char.isDigit then
    some (t.foldl (fun n c => n * 10 + (c.toNat - 48)) 0)
  else none

def LockFile.acquire (alive : Nat → Bool) (pid : Nat) :
    LockState → Except Unit (Bool × LockState)
  | ⟨none⟩ => .ok (true, ⟨some (toString pid)⟩)
  | ⟨some content⟩ =>
    match parsePid content with
    | none => .error ()
    | some p =>
      if alive p then .ok (false, ⟨some content⟩)
      else LockFile.acquire alive pid ⟨none⟩
termination_by st => (if st.lock.isSome then 1 else 0)
decreasing_by simp

def LockFile.release (_st : LockState) : LockState := ⟨none⟩

structure DirEntry where
  did : String
  username : String
deriving DecidableEq

structure AgentSt where
  selfDid : String
  websocket : Option Unit
  contacts : List (String × ContactInfo)
  savedMessages : List (String × String × Option String)
deriving DecidableEq

structure SendMessageRequest where
  «to» : Option String
  to_name : Option String
  content : String
deriving DecidableEq

/-- Python truthiness of an optional string field (None and "" are falsy). -/
def pyTruthy : Option String → Bool
  | none => false
  | some s => !(s == "")

inductive PyExn
  | httpException (status : Nat) (detail : String)
  | requestsError
deriving DecidableEq

/-- Directory query outcome: `.error` = requests raised (unreachable relay),
`.ok none` = non-200 response, `.ok (some agents)` = 200 with agent list. -/
def check_registration (dirResp : Except Unit (Option (List DirEntry)))
    (selfDid : String) : Except PyExn (Bool × Option String) :=
  match dirResp with
  | .error _ => .error .requestsError
  | .ok none => .ok (false, none)
  | .ok (some agents) =>
      match agents.find? (fun a => a.did == selfDid) with
      | some a => .ok (true, some a.username)
      | none => .ok (false, none)

/-- Body of the `try:` block of the /send registration gate: query the
directory, and raise HTTPException(403) when the local DID is absent. -/
def registrationGateBody (dirResp : Except Unit (Option (List DirEntry)))
    (selfDid : String) : Except PyExn Unit :=
  match check_registration dirResp selfDid with
  | .error e => .error e
  | .ok (isRegistered, _) =>
      if isRegistered then .ok ()
      else .error (.httpException 403
        "You must register a username before sending messages. Use: agentctl register @yourname")

/-- The gate as executed: `except Exception as e: pass` catches every
exception raised in the body — including the HTTPException(403). -/
def runRegistrationGate (dirResp : Except Unit (Option (List DirEntry)))
    (selfDid : String) : Except PyExn Unit :=
  match registrationGateBody dirResp selfDid with
  | .ok u => .ok u
  | .error _ => .ok ()

inductive SendOutcome
  | sent (toDid : String) (toName : Option String)
  | ambiguousName (suggestions : List String)
  | notFoundContact (detail : String)
  | badRequest
  | notConnected
  | notRegistered
  | sendFailed
deriving DecidableEq

/-- Suggestion string built for the 300 response; `int(score*100)` truncates,
which is the floor for the nonnegative scores involved. -/
def formatSuggestion (m : FuzzyMatch) : String :=
  m.name ++ " (DID: " ++ m.did ++ ", similarity: "
    ++ toString (Rat.floor (m.score * 100)) ++ "%)"

/-- Recipient resolution of the /send endpoint (agentd.py lines 248-281). -/
def resolveRecipient (ag : AgentSt) (req : SendMessageRequest) :
    Except SendOutcome String :=
  if pyTruthy req.«to» then .ok (req.«to».getD "")
  else if pyTruthy req.to_name then
    let nm := req.to_name.getD ""
    match find_contact_by_name ag.contacts nm with
    | some did => .ok did
    | none =>
      match find_contacts_fuzzy ag.contacts nm (3 / 5) with
      | [] => .error (.notFoundContact ("Contact not found: " ++ nm))
      | m :: rest => .error (.ambiguousName
          (((m :: rest).take 3).map formatSuggestion))
  else .error .badRequest

/-- Model of agent_v2.py Agent.send_message (lines 309-352): reject targets
missing from the contact book or without the DID prefix, then transmit
(compress + base64 only — no asymmetric step); a transport exception yields
`false`. -/
def strStartsWith (s pre : String) : Bool := pre.data.isPrefixOf s.data

def agent_send (ag : AgentSt) (recipientDid : String) (transportOk : Bool) :
    Bool :=
  if (ag.contacts.find? (fun p => p.1 == recipientDid)).isNone then false
  else if !(strStartsWith recipientDid "did:key:ed25519:") then false
  else transportOk

/-- The /send endpoint (agentd.py lines 208-288). The two `.error` branches
of the gate are dead code: `runRegistrationGate` swallows every exception;
they are kept to mirror what FastAPI would do with an uncaught exception. -/
def send_message_endpoint (ag : AgentSt) (req : SendMessageRequest)
    (dirResp : Except Unit (Option (List DirEntry))) (transportOk : Bool) :
    SendOutcome :=
  if ag.websocket.isNone then .notConnected
  else
    match runRegistrationGate dirResp ag.selfDid with
    | .error (.httpException _ _) => .notRegistered
    | .error .requestsError => .sendFailed
    | .ok _ =>
      match resolveRecipient ag req with
      | .error outcome => outcome
      | .ok recipientDid =>
          if agent_send ag recipientDid transportOk then
            .sent recipientDid req.to_name
          else .sendFailed

inductive RelayFrame
  | errorFrame (msg : String)
  | messageFrame (sender : String) (content : String) (timestamp : Option String)
  | otherFrame
deriving DecidableEq

/-- Inbound decode used by the receive loop (agent_v2.py lines 374-377):
base64-decode then decompress then UTF-8 decode — no decryption. Any
exception is caught by the loop and the frame is skipped. -/
def plainDecode (L : EnvLib) (content : String) : Option String :=
  match b64Decode false content.data with
  | none => none
  | some cbytes =>
    match L.decompress cbytes with
    | none => none
    | some ptBytes => L.utf8Decode ptBytes

def listenStep (L : EnvLib) (st : AgentSt) (f : RelayFrame) : AgentSt :=
  match f with
  | .errorFrame _ => st
  | .otherFrame => st
  | .messageFrame sender content ts =>
      match plainDecode L content with
      | none => st
      | some pt =>
          { st with savedMessages := st.savedMessages ++ [(sender, pt, ts)] }

/-- The receive loop over the frames delivered before the stream closes; the
`ConnectionClosed` handler only prints, so closing mutates no state. -/
def listen (L : EnvLib) (st : AgentSt) (frames : List RelayFrame) : AgentSt :=
  frames.foldl (listenStep L) st

/-- The status endpoint's connectivity report (agentd.py line 200):
`agent.websocket is not None`. -/
def status_connected (ag : AgentSt) : Bool := ag.websocket.isSome

/-- The /disconnect endpoint (agentd.py lines 385-392). -/
def disconnect_endpoint (ag : AgentSt) : AgentSt := { ag with websocket := none }

/-- Timestamp sanitization of save_message: `.replace(":", "-")` then
`.replace(".", "-")`. -/
def sanitizeTimestamp (t : String) : String :=
  String.mk ((t.data.map (fun c => if c = ':' then '-' else c)).map
    (fun c => if c = '.' then '-' else c))

/-- Sender sanitization of save_message: `.replace(":", "-")[:50]`. -/
def sanitizeSender (s : String) : String :=
  String.mk ((s.data.map (fun c => if c = ':' then '-' else c)).take 50)

/-- Saved-message filename for a relay-supplied timestamp
(`f"{timestamp_str}_{safe_did}.json"`). -/
def message_filename (timestamp senderDid : String) : String :=
  sanitizeTimestamp timestamp ++ "_" ++ sanitizeSender senderDid ++ ".json"

/-- Pointwise sanitization applied to timestamps. -/
def sanTsChar (c : Char) : Char := if c = ':' ∨ c = '.' then '-' else c

/-- Punctuation affected by timestamp sanitization. -/
def tsPunct (c : Char) : Prop := c = ':' ∨ c = '.'

instance (c : Char) : Decidable (tsPunct c) :=
  inferInstanceAs (Decidable (c = ':' ∨ c = '.'))

end AgentMessenger

namespace AgentMessenger

/-- Every sextet value below 64 is recovered by looking its character up in the
same alphabet. -/
theorem sextetVal_sextetChar (u : Bool) (n : Nat) (h : n < 64) :
    sextetVal u (sextetChar u n) = some n := by
  revert n
  cases u <;> decide

/-- Alphabet characters are never the padding character. -/
theorem sextetChar_ne_eq (u : Bool) (n : Nat) (h : n < 64) : sextetChar u n ≠ '=' := by
  revert n
  cases u <;> decide

/-- One decode step consuming an alphabet character. -/
theorem loop_step_enc (u : Bool) (n : Nat) (hn : n < 64) (rest : List Char)
    (quadPos l p : Nat) (acc : List Nat) :
    b64DecodeLoop u (sextetChar u n :: rest) quadPos l p acc
      = match quadPos with
        | 0 => b64DecodeLoop u rest 1 n 0 acc
        | 1 => b64DecodeLoop u rest 2 (n % 16) 0 (acc ++ [l * 4 + n / 16])
        | 2 => b64DecodeLoop u rest 3 (n % 4) 0 (acc ++ [l * 16 + n / 4])
        | _ => b64DecodeLoop u rest 0 0 0 (acc ++ [l * 64 + n]) := by
  simp only [b64DecodeLoop]
  rw [if_neg (sextetChar_ne_eq u n hn), sextetVal_sextetChar u n hn]

/-- Decode step at quad position 0. -/
theorem loop_step_enc0 (u : Bool) (n : Nat) (hn : n < 64) (rest : List Char)
    (l p : Nat) (acc : List Nat) :
    b64DecodeLoop u (sextetChar u n :: rest) 0 l p acc
      = b64DecodeLoop u rest 1 n 0 acc := by
  rw [loop_step_enc u n hn rest 0 l p acc]

/-- Decode step at quad position 1 (first byte of the quad emitted). -/
theorem loop_step_enc1 (u : Bool) (n : Nat) (hn : n < 64) (rest : List Char)
    (l p : Nat) (acc : List Nat) :
    b64DecodeLoop u (sextetChar u n :: rest) 1 l p acc
      = b64DecodeLoop u rest 2 (n % 16) 0 (acc ++ [l * 4 + n / 16]) := by
  rw [loop_step_enc u n hn rest 1 l p acc]

/-- Decode step at quad position 2 (second byte of the quad emitted). -/
theorem loop_step_enc2 (u : Bool) (n : Nat) (hn : n < 64) (rest : List Char)
    (l p : Nat) (acc : List Nat) :
    b64DecodeLoop u (sextetChar u n :: rest) 2 l p acc
      = b64DecodeLoop u rest 3 (n % 4) 0 (acc ++ [l * 16 + n / 4]) := by
  rw [loop_step_enc u n hn rest 2 l p acc]

/-- Decode step at quad position 3 (third byte of the quad emitted). -/
theorem loop_step_enc3 (u : Bool) (n : Nat) (hn : n < 64) (rest : List Char)
    (l p : Nat) (acc : List Nat) :
    b64DecodeLoop u (sextetChar u n :: rest) 3 l p acc
      = b64DecodeLoop u rest 0 0 0 (acc ++ [l * 64 + n]) := by
  rw [loop_step_enc u n hn rest 3 l p acc]

/-- A first padding character after two sextets is recorded. -/
theorem loop_pad2_first (u : Bool) (rest : List Char) (l : Nat)
    (acc : List Nat) :
    b64DecodeLoop u ('=' :: rest) 2 l 0 acc
      = b64DecodeLoop u rest 2 l 1 acc := rfl

/-- A second padding character after two sextets completes the quad: decoding
stops and every remaining character is ignored. -/
theorem loop_pad2_second (u : Bool) (rest : List Char) (l : Nat)
    (acc : List Nat) :
    b64DecodeLoop u ('=' :: rest) 2 l 1 acc = some acc := rfl

/-- A padding character after three sextets completes the quad: decoding
stops and every remaining character is ignored. -/
theorem loop_pad3 (u : Bool) (rest : List Char) (l : Nat) (acc : List Nat) :
    b64DecodeLoop u ('=' :: rest) 3 l 0 acc = some acc := rfl

/-- The decode automaton inverts the encoder, for any accumulator. -/
theorem b64DecodeLoop_encode (u : Bool) :
    ∀ x : List Nat, (∀ b ∈ x, b < 256) → ∀ acc : List Nat,
      b64DecodeLoop u (b64EncodeBytes u x) 0 0 0 acc = some (acc ++ x)
  | [], _, acc => by simp [b64EncodeBytes, b64DecodeLoop]
  | [b1], hx, acc => by
      have h1 : b1 < 256 := hx b1 (by simp)
      simp only [b64EncodeBytes]
      rw [loop_step_enc0 u (b1 / 4) (by omega),
        loop_step_enc1 u (b1 % 4 * 16) (by omega),
        loop_pad2_first, loop_pad2_second]
      have hb : b1 / 4 * 4 + b1 % 4 * 16 / 16 = b1 := by omega
      rw [hb]
  | [b1, b2], hx, acc => by
      have h1 : b1 < 256 := hx b1 (by simp)
      have h2 : b2 < 256 := hx b2 (by simp)
      simp only [b64EncodeBytes]
      rw [loop_step_enc0 u (b1 / 4) (by omega),
        loop_step_enc1 u (b1 % 4 * 16 + b2 / 16) (by omega),
        loop_step_enc2 u (b2 % 16 * 4) (by omega),
        loop_pad3]
      have e1 : b1 / 4 * 4 + (b1 % 4 * 16 + b2 / 16) / 16 = b1 := by omega
      have e2 : (b1 % 4 * 16 + b2 / 16) % 16 * 16 + b2 % 16 * 4 / 4 = b2 := by
        omega
      rw [e1, e2, List.append_assoc]
      rfl
  | b1 :: b2 :: b3 :: rest, hx, acc => by
      have h1 : b1 < 256 := hx b1 (by simp)
      have h2 : b2 < 256 := hx b2 (by simp)
      have h3 : b3 < 256 := hx b3 (by simp)
      simp only [b64EncodeBytes]
      rw [loop_step_enc0 u (b1 / 4) (by omega),
        loop_step_enc1 u (b1 % 4 * 16 + b2 / 16) (by omega),
        loop_step_enc2 u (b2 % 16 * 4 + b3 / 64) (by omega),
        loop_step_enc3 u (b3 % 64) (by omega)]
      have e1 : b1 / 4 * 4 + (b1 % 4 * 16 + b2 / 16) / 16 = b1 := by omega
      have e2 : (b1 % 4 * 16 + b2 / 16) % 16 * 16 +
          (b2 % 16 * 4 + b3 / 64) / 4 = b2 := by omega
      have e3 : (b2 % 16 * 4 + b3 / 64) % 4 * 64 + b3 % 64 = b3 := by omega
      rw [e1, e2, e3,
        b64DecodeLoop_encode u rest (fun b hb => hx b (by simp [hb]))
          (acc ++ [b1] ++ [b2] ++ [b3])]
      simp [List.append_assoc]

/-- Python base64 decoding inverts encoding (for byte inputs). -/
theorem b64Decode_encode (u : Bool) (x : List Nat) (hx : ∀ b ∈ x, b < 256) :
    b64Decode u (b64EncodeBytes u x) = some x := by
  have h := b64DecodeLoop_encode u x hx []
  simpa [b64Decode] using h

/-- dropWhile does nothing on a list with no leading match anywhere. -/
theorem dropWhile_of_forall_ne (l : List Char) (h : ∀ c ∈ l, c ≠ '=') :
    l.dropWhile (fun c => c = '=') = l := by
  cases l with
  | nil => rfl
  | cons a t =>
      rw [List.dropWhile_cons]
      simp [h a (by simp)]

/-- Encoding a byte list whose length is 2 mod 3 ends in exactly one `=`,
with no `=` before it. -/
theorem encode_mod3_two (u : Bool) :
    ∀ x : List Nat, x.length % 3 = 2 → (∀ b ∈ x, b < 256) →
      ∃ body, b64EncodeBytes u x = body ++ ['='] ∧ ∀ c ∈ body, c ≠ '='
  | [], h, _ => by simp at h
  | [b1], h, _ => by simp at h
  | [b1, b2], _, hb => by
      have h1 : b1 < 256 := hb b1 (by simp)
      have h2 : b2 < 256 := hb b2 (by simp)
      refine ⟨[sextetChar u (b1 / 4), sextetChar u (b1 % 4 * 16 + b2 / 16),
        sextetChar u (b2 % 16 * 4)], rfl, ?_⟩
      intro c hc
      simp only [List.mem_cons, List.not_mem_nil, or_false] at hc
      rcases hc with h | h | h
      all_goals (subst h; exact sextetChar_ne_eq u _ (by omega))
  | b1 :: b2 :: b3 :: rest, h, hb => by
      have h1 : b1 < 256 := hb b1 (by simp)
      have h2 : b2 < 256 := hb b2 (by simp)
      have h3 : b3 < 256 := hb b3 (by simp)
      have hr : rest.length % 3 = 2 := by
        simp only [List.length_cons] at h; omega
      obtain ⟨body, hE, hne⟩ := encode_mod3_two u rest hr
        (fun b hbm => hb b (by simp [hbm]))
      refine ⟨sextetChar u (b1 / 4) :: sextetChar u (b1 % 4 * 16 + b2 / 16) ::
        sextetChar u (b2 % 16 * 4 + b3 / 64) :: sextetChar u (b3 % 64) :: body,
        ?_, ?_⟩
      · simp [b64EncodeBytes, hE]
      · intro c hc
        simp only [List.mem_cons] at hc
        rcases hc with h | h | h | h | h
        · subst h; exact sextetChar_ne_eq u _ (by omega)
        · subst h; exact sextetChar_ne_eq u _ (by omega)
        · subst h; exact sextetChar_ne_eq u _ (by omega)
        · subst h; exact sextetChar_ne_eq u _ (by omega)
        · exact hne c h

/-- Stripping the single trailing pad of a pad-free body recovers the body. -/
theorem rstripEq_append_pad (body : List Char) (h : ∀ c ∈ body, c ≠ '=') :
    rstripEq (body ++ ['=']) = body := by
  unfold rstripEq
  rw [List.reverse_append]
  simp only [List.reverse_cons, List.reverse_nil, List.nil_append,
    List.singleton_append, List.dropWhile_cons]
  simp only [decide_True, if_true]
  rw [dropWhile_of_forall_ne _ (fun c hc => h c (List.mem_reverse.mp hc))]
  exact List.reverse_reverse body

/-- C2: identifier derivation is format-exact and persistence-stable: for a
32-byte public key, `derive_did` returns `"did:key:ed25519:"` followed by a
pad-free urlsafe base64 suffix that (re-padded) decodes back to exactly the
key bytes; creating an identity in an empty store derives the identifier from
the public key, and loading the persisted identity afterwards returns the
identical identifier string. -/
theorem c2_identifier_derivation (pubOf : List Nat → List Nat) (k k2 : List Nat)
    (hb : ∀ b ∈ pubOf k, b < 256) (hlen : (pubOf k).length = 32) :
    (∃ s : List Char,
        derive_did (pubOf k) = "did:key:ed25519:" ++ String.mk s ∧
        (∀ c ∈ s, c ≠ '=') ∧
        b64Decode true (s ++ ['=']) = some (pubOf k)) ∧
    (get_or_create_identity pubOf k ⟨none, none⟩).did = derive_did (pubOf k) ∧
    (get_or_create_identity pubOf k2
        (get_or_create_identity pubOf k ⟨none, none⟩).store).did
      = (get_or_create_identity pubOf k ⟨none, none⟩).did := by
  obtain ⟨body, hE, hne⟩ := encode_mod3_two true (pubOf k) (by omega) hb
  refine ⟨⟨rstripEq (b64EncodeBytes true (pubOf k)), rfl, ?_, ?_⟩, rfl, rfl⟩
  · rw [hE, rstripEq_append_pad body hne]; exact hne
  · rw [hE, rstripEq_append_pad body hne, ← hE]
    exact b64Decode_encode true _ hb

/-- Witness for C2 at a concrete 32-byte key. -/
theorem c2_identifier_derivation_witness :
    (∀ b ∈ List.range 32, b < 256) ∧ (List.range 32).length = 32 ∧
    (get_or_create_identity (fun x => x) []
        (get_or_create_identity (fun x => x) (List.range 32) ⟨none, none⟩).store).did
      = (get_or_create_identity (fun x => x) (List.range 32) ⟨none, none⟩).did :=
  ⟨by decide, by decide,
    (c2_identifier_derivation (fun x => x) (List.range 32) [] (by decide)
      (by decide)).2.2⟩

/-- The concrete library record satisfies the zlib contract. -/
theorem toyLib_zlib : ZlibRoundTrip toyLib := fun _ => rfl

/-- The concrete library record satisfies the UTF-8 contract. -/
theorem toyLib_utf8 : Utf8RoundTrip toyLib := by
  intro s
  show some (String.mk ((s.data.map Char.toNat).map Char.ofNat)) = some s
  rw [List.map_map]
  have : (Char.ofNat ∘ Char.toNat) = id := by
    funext c; exact Char.ofNat_toNat c
  rw [this, List.map_id]

/-- The concrete library record satisfies the AEAD round-trip contract. -/
theorem toyLib_aead_rt : AeadRoundTrip toyLib := by
  intro k n p
  show (if 16 ≤ (p ++ toyTag).length ∧
        (p ++ toyTag).drop ((p ++ toyTag).length - 16) = toyTag then
      some ((p ++ toyTag).take ((p ++ toyTag).length - 16))
    else none) = some p
  have hlen : (p ++ toyTag).length = p.length + 16 := by simp [toyTag]
  have hidx : (p ++ toyTag).length - 16 = p.length := by omega
  have hT : toyTag.length = 16 := by simp [toyTag]
  rw [hidx]
  rw [if_pos ⟨by omega, by rw [List.drop_left]⟩, List.take_left]

/-- The concrete library record satisfies the AEAD soundness contract. -/
theorem toyLib_aead_sound : AeadSound toyLib := by
  intro k n c p h
  show p ++ toyTag = c
  simp only [toyLib] at h
  split at h
  · next hcond =>
      obtain ⟨-, hdrop⟩ := hcond
      obtain rfl : c.take (c.length - 16) = p := by
        simpa using h
      conv_rhs => rw [← List.take_append_drop (c.length - 16) c]
      rw [hdrop]
  · exact absurd h (by simp)

/-- C1: envelope round-trip — decrypting the result of encrypting any
plaintext for a peer public key with the same key returns exactly the
plaintext: base64 framing, fixed-nonce AEAD and compression invert in the
reverse order (under the stated zlib/AEAD/UTF-8 library contracts, with the
produced ciphertext consisting of bytes). -/
theorem c1_envelope_roundtrip (L : EnvLib) (hz : ZlibRoundTrip L)
    (ha : AeadRoundTrip L) (hu : Utf8RoundTrip L) (m : String) (pub : List Nat)
    (hbytes : ∀ b ∈ L.aeadEncrypt (derive_shared_key L pub) nonce12
        (L.compress (L.utf8Encode m)), b < 256) :
    decrypt_message L (encrypt_message L m pub) pub = .ok m := by
  have h1 : b64Decode false (encrypt_message L m pub).data
      = some (L.aeadEncrypt (derive_shared_key L pub) nonce12
          (L.compress (L.utf8Encode m))) :=
    b64Decode_encode false _ hbytes
  have ha2 := ha (derive_shared_key L pub) nonce12 (L.compress (L.utf8Encode m))
  have hz2 := hz (L.utf8Encode m)
  have hu2 := hu m
  simp only [decrypt_message, h1, ha2, hz2, hu2]

/-- Witness for C1 at the concrete library record and a concrete message. -/
theorem c1_envelope_roundtrip_witness :
    decrypt_message toyLib (encrypt_message toyLib "hi" [1, 2, 3]) [1, 2, 3]
      = .ok "hi" :=
  c1_envelope_roundtrip toyLib toyLib_zlib toyLib_aead_rt toyLib_utf8
    "hi" [1, 2, 3] (by decide)

/-- C9 counterexample: decoding a ciphertext obtained by corrupting a byte of
`encode(m)` does NOT always fail — changing character 22 of the 24-character
envelope of `"a"` (a character whose low bits are padding slack of the final
base64 group) yields a different envelope string that still decodes to the
same ciphertext bytes, so decryption succeeds and returns `"a"`. The same
phenomenon occurs with the real libraries, whose ciphertext for `"a"` is 25
bytes long and hence also base64-padded. -/
theorem c9_corruption_counterexample :
    (String.mk ((encrypt_message toyLib "a" [1, 2, 3]).data.set 22 'd')
        ≠ encrypt_message toyLib "a" [1, 2, 3]) ∧
    decrypt_message toyLib
        (String.mk ((encrypt_message toyLib "a" [1, 2, 3]).data.set 22 'd'))
        [1, 2, 3]
      = .ok "a" := by
  constructor
  · decide
  · rfl

/-- C9 (amended): corrupting the base64 envelope either (i) leaves the decoded
ciphertext bytes unchanged, in which case decryption succeeds with exactly the
original plaintext, (ii) changes them to bytes that are not an exact AEAD
encryption under the derived key — e.g. a truncation caused by writing `=`
into an interior quad, after which Python stops decoding — in which case
decryption fails with `DecryptionError` (tag mismatch), or (iii) leaves an
unfinished quad at the end of the scan (e.g. a corruption to a character
outside the alphabet in a non-final quad of an unpadded envelope), in which
case decoding fails with a base64 error; a plaintext different from the
encoded one is never returned in cases (i)-(iii). -/
theorem c9_corruption_behavior (L : EnvLib) (hz : ZlibRoundTrip L)
    (ha : AeadRoundTrip L) (hs : AeadSound L) (hu : Utf8RoundTrip L)
    (m : String) (pub : List Nat)
    (hbytes : ∀ b ∈ L.aeadEncrypt (derive_shared_key L pub) nonce12
        (L.compress (L.utf8Encode m)), b < 256)
    (s2 : String) :
    (b64Decode false s2.data = b64Decode false (encrypt_message L m pub).data →
       decrypt_message L s2 pub = .ok m) ∧
    (∀ c2, b64Decode false s2.data = some c2 →
       (∀ d, L.aeadEncrypt (derive_shared_key L pub) nonce12 d ≠ c2) →
       decrypt_message L s2 pub = .error .decryptionError) ∧
    (b64Decode false s2.data = none →
       decrypt_message L s2 pub = .error .badBase64) := by
  refine ⟨?_, ?_, ?_⟩
  · intro hsame
    have h1 : b64Decode false (encrypt_message L m pub).data
        = some (L.aeadEncrypt (derive_shared_key L pub) nonce12
            (L.compress (L.utf8Encode m))) :=
      b64Decode_encode false _ hbytes
    rw [h1] at hsame
    have ha2 := ha (derive_shared_key L pub) nonce12 (L.compress (L.utf8Encode m))
    have hz2 := hz (L.utf8Encode m)
    have hu2 := hu m
    simp only [decrypt_message, hsame, ha2, hz2, hu2]
  · intro c2 hdec hforge
    have hnone : L.aeadDecrypt (derive_shared_key L pub) nonce12 c2 = none := by
      cases hd : L.aeadDecrypt (derive_shared_key L pub) nonce12 c2 with
      | none => rfl
      | some p => exact absurd (hs _ _ _ _ hd) (hforge p)
    simp only [decrypt_message, hdec, hnone]
  · intro hdec
    simp only [decrypt_message, hdec]

/-- Witness for the amended C9 at two concrete corrupted envelopes: the
slack-bit corruption at character 22 decodes to the same bytes and decryption
returns the original plaintext (case i), and writing `=` over character 7 —
the fourth character of an interior quad — truncates the decoded bytes to
`[97, 7, 7, 7, 7]` (decoding stops at the completed padded quad), which no
plaintext encrypts to, so decryption fails with `DecryptionError` (case ii). -/
theorem c9_corruption_behavior_witness :
    (decrypt_message toyLib
        (String.mk ((encrypt_message toyLib "a" [1, 2, 3]).data.set 22 'd'))
        [1, 2, 3]
      = .ok "a") ∧
    (decrypt_message toyLib
        (String.mk ((encrypt_message toyLib "a" [1, 2, 3]).data.set 7 '='))
        [1, 2, 3]
      = .error .decryptionError) := by
  constructor
  · exact (c9_corruption_behavior toyLib toyLib_zlib toyLib_aead_rt
      toyLib_aead_sound toyLib_utf8 "a" [1, 2, 3] (by decide)
      (String.mk ((encrypt_message toyLib "a" [1, 2, 3]).data.set 22 'd'))).1
      (by decide)
  · exact (c9_corruption_behavior toyLib toyLib_zlib toyLib_aead_rt
      toyLib_aead_sound toyLib_utf8 "a" [1, 2, 3] (by decide)
      (String.mk ((encrypt_message toyLib "a" [1, 2, 3]).data.set 7 '='))).2.1
      [97, 7, 7, 7, 7] (by decide)
      (fun d hd => by
        have hl := congrArg List.length hd
        simp only [toyLib, toyTag, List.length_append, List.length_replicate,
          List.length_cons, List.length_nil] at hl
        omega)

/-- A fold preserves an invariant preserved by each step. -/
theorem foldl_preserve {α β : Type} (P : β → Prop) (f : β → α → β)
    (hstep : ∀ b a, P b → P (f b a)) :
    ∀ (l : List α) (b : β), P b → P (l.foldl f b)
  | [], _, hb => hb
  | a :: t, b, hb => foldl_preserve P f hstep t (f b a) (hstep b a hb)

/-- A fold over a list containing `e` establishes any property that the step
at `e` establishes and every step preserves. -/
theorem foldl_visits {α β : Type} (P : β → Prop) (f : β → α → β)
    (hstep : ∀ b a, P b → P (f b a)) (e : α) (hestab : ∀ b, P (f b e)) :
    ∀ l : List α, e ∈ l → ∀ b : β, P (l.foldl f b)
  | a :: t, he, b => by
      rcases List.mem_cons.mp he with rfl | ht
      · exact foldl_preserve P f hstep t (f b e) (hestab b)
      · exact foldl_visits P f hstep e hestab t ht (f b a)

/-- Common-extension length is bounded by the left length. -/
theorem extLen_le_left : ∀ a b : List Char, extLen a b ≤ a.length
  | [], _ => by simp [extLen]
  | _ :: _, [] => by simp [extLen]
  | a :: as, b :: bs => by
      simp only [extLen, List.length_cons]
      split
      · exact Nat.succ_le_succ (extLen_le_left as bs)
      · exact Nat.zero_le _

/-- Common-extension length is bounded by the right length. -/
theorem extLen_le_right : ∀ a b : List Char, extLen a b ≤ b.length
  | [], _ => by simp [extLen]
  | _ :: _, [] => by simp [extLen]
  | a :: as, b :: bs => by
      simp only [extLen, List.length_cons]
      split
      · exact Nat.succ_le_succ (extLen_le_right as bs)
      · exact Nat.zero_le _

/-- A list extends itself fully. -/
theorem extLen_self : ∀ a : List Char, extLen a a = a.length
  | [] => rfl
  | c :: t => by simp [extLen, extLen_self t]

/-- One scan step keeps the recorded size consistent with its position. -/
theorem bestStep_spec (a b : List Char) (best : Nat × Nat × Nat) (i j : Nat)
    (h : best.2.2 ≤ extLen (a.drop best.1) (b.drop best.2.1)) :
    (bestStep a b best i j).2.2 ≤
      extLen (a.drop (bestStep a b best i j).1)
        (b.drop (bestStep a b best i j).2.1) := by
  simp only [bestStep]
  split
  · exact le_refl _
  · exact h

/-- One scan step never decreases the recorded size. -/
theorem bestStep_mono (a b : List Char) (best : Nat × Nat × Nat) (i j v : Nat)
    (h : v ≤ best.2.2) : v ≤ (bestStep a b best i j).2.2 := by
  simp only [bestStep]
  split
  · next hlt => exact le_trans h (le_of_lt hlt)
  · exact h

/-- The scan step at `(i, j)` pushes the recorded size to at least the
extension length at `(i, j)`. -/
theorem bestStep_estab (a b : List Char) (best : Nat × Nat × Nat) (i j : Nat) :
    extLen (a.drop i) (b.drop j) ≤ (bestStep a b best i j).2.2 := by
  simp only [bestStep]
  split
  · exact le_refl _
  · next hnlt => exact le_of_not_lt hnlt

/-- The best block found is consistent with its recorded position. -/
theorem bestAt_spec (a b : List Char) :
    (bestAt a b).2.2 ≤
      extLen (a.drop (bestAt a b).1) (b.drop (bestAt a b).2.1) := by
  unfold bestAt
  exact foldl_preserve _ _
    (fun acc i hacc =>
      foldl_preserve _ _ (fun acc2 j h2 => bestStep_spec a b acc2 i j h2) _ acc hacc)
    (List.range a.length) (0, 0, 0) (Nat.zero_le _)

/-- The best block dominates the block at every scanned position. -/
theorem bestAt_ge (a b : List Char) (i j : Nat) (hi : i < a.length)
    (hj : j < b.length) :
    extLen (a.drop i) (b.drop j) ≤ (bestAt a b).2.2 := by
  unfold bestAt
  have hstep : ∀ (acc : Nat × Nat × Nat) (ii : Nat),
      extLen (a.drop i) (b.drop j) ≤ acc.2.2 →
      extLen (a.drop i) (b.drop j) ≤
        ((List.range b.length).foldl
          (fun acc2 jj => bestStep a b acc2 ii jj) acc).2.2 :=
    fun acc ii hacc =>
      foldl_preserve (fun best => extLen (a.drop i) (b.drop j) ≤ best.2.2)
        (fun acc2 jj => bestStep a b acc2 ii jj)
        (fun acc2 jj h2 => bestStep_mono a b acc2 ii jj _ h2)
        (List.range b.length) acc hacc
  have hestab : ∀ acc : Nat × Nat × Nat,
      extLen (a.drop i) (b.drop j) ≤
        ((List.range b.length).foldl
          (fun acc2 jj => bestStep a b acc2 i jj) acc).2.2 :=
    fun acc =>
      foldl_visits (fun best => extLen (a.drop i) (b.drop j) ≤ best.2.2)
        (fun acc2 jj => bestStep a b acc2 i jj)
        (fun acc2 jj h2 => bestStep_mono a b acc2 i jj _ h2)
        j (fun acc2 => bestStep_estab a b acc2 i j)
        (List.range b.length) (List.mem_range.mpr hj) acc
  exact foldl_visits (fun best => extLen (a.drop i) (b.drop j) ≤ best.2.2)
    (fun acc ii =>
      (List.range b.length).foldl (fun acc2 jj => bestStep a b acc2 ii jj) acc)
    hstep i hestab (List.range a.length) (List.mem_range.mpr hi) (0, 0, 0)

/-- The block matcher yields zero on two empty lists at any fuel. -/
theorem matchSizeF_nil_nil : ∀ fuel : Nat, matchSizeF fuel [] [] = 0
  | 0 => rfl
  | _ + 1 => by simp [matchSizeF, bestAt]

/-- Total matched size is bounded by the left length. -/
theorem matchSizeF_le_left : ∀ (fuel : Nat) (a b : List Char),
    matchSizeF fuel a b ≤ a.length
  | 0, _, _ => Nat.zero_le _
  | fuel + 1, a, b => by
      by_cases hk : (bestAt a b).2.2 = 0
      · simp [matchSizeF, hk]
      · have h1 : (bestAt a b).2.2 ≤ a.length - (bestAt a b).1 := by
          have := le_trans (bestAt_spec a b) (extLen_le_left _ _)
          simpa using this
        have e1 := matchSizeF_le_left fuel (a.take (bestAt a b).1)
          (b.take (bestAt a b).2.1)
        have e2 := matchSizeF_le_left fuel
          (a.drop ((bestAt a b).1 + (bestAt a b).2.2))
          (b.drop ((bestAt a b).2.1 + (bestAt a b).2.2))
        simp only [List.length_take, List.length_drop] at e1 e2
        simp only [matchSizeF, if_neg hk]
        omega

/-- Total matched size is bounded by the right length. -/
theorem matchSizeF_le_right : ∀ (fuel : Nat) (a b : List Char),
    matchSizeF fuel a b ≤ b.length
  | 0, _, _ => Nat.zero_le _
  | fuel + 1, a, b => by
      by_cases hk : (bestAt a b).2.2 = 0
      · simp [matchSizeF, hk]
      · have h1 : (bestAt a b).2.2 ≤ b.length - (bestAt a b).2.1 := by
          have := le_trans (bestAt_spec a b) (extLen_le_right _ _)
          simpa using this
        have e1 := matchSizeF_le_right fuel (a.take (bestAt a b).1)
          (b.take (bestAt a b).2.1)
        have e2 := matchSizeF_le_right fuel
          (a.drop ((bestAt a b).1 + (bestAt a b).2.2))
          (b.drop ((bestAt a b).2.1 + (bestAt a b).2.2))
        simp only [List.length_take, List.length_drop] at e1 e2
        simp only [matchSizeF, if_neg hk]
        omega

/-- Matched size of a list against itself is its full length. -/
theorem matchSize_self : ∀ a : List Char, matchSize a a = a.length
  | [] => rfl
  | c :: t => by
      have hlen : 0 < (c :: t).length := by simp
      have hge : (c :: t).length ≤ (bestAt (c :: t) (c :: t)).2.2 := by
        have := bestAt_ge (c :: t) (c :: t) 0 0 hlen hlen
        simpa [extLen_self] using this
      have hle : (bestAt (c :: t) (c :: t)).2.2 ≤
          (c :: t).length - (bestAt (c :: t) (c :: t)).1 := by
        have := le_trans (bestAt_spec (c :: t) (c :: t)) (extLen_le_left _ _)
        simpa using this
      have hle2 : (bestAt (c :: t) (c :: t)).2.2 ≤
          (c :: t).length - (bestAt (c :: t) (c :: t)).2.1 := by
        have := le_trans (bestAt_spec (c :: t) (c :: t)) (extLen_le_right _ _)
        simpa using this
      have hi : (bestAt (c :: t) (c :: t)).1 = 0 := by omega
      have hj : (bestAt (c :: t) (c :: t)).2.1 = 0 := by omega
      have hk : (bestAt (c :: t) (c :: t)).2.2 = (c :: t).length := by omega
      have hfuel : (c :: t).length + (c :: t).length
          = (t.length + (c :: t).length) + 1 := by simp; omega
      show matchSizeF ((c :: t).length + (c :: t).length) (c :: t) (c :: t)
        = (c :: t).length
      rw [hfuel]
      simp only [matchSizeF, hi, hj, hk]
      rw [if_neg (by omega)]
      simp [List.drop_length, matchSizeF_nil_nil,
        show bestAt [] [] = (0, 0, 0) from rfl]

/-- Similarity scores are nonnegative. -/
theorem ratioQ_nonneg (a b : String) : 0 ≤ ratioQ a b := by
  unfold ratioQ
  split
  · norm_num
  · positivity

/-- Similarity scores never exceed one. -/
theorem ratioQ_le_one (a b : String) : ratioQ a b ≤ 1 := by
  unfold ratioQ
  split
  · exact le_refl _
  · next h =>
      have hm1 := matchSizeF_le_left (a.data.length + b.data.length) a.data b.data
      have hm2 := matchSizeF_le_right (a.data.length + b.data.length) a.data b.data
      have hpos : (0 : ℚ) < ((a.data.length + b.data.length : Nat) : ℚ) := by
        exact_mod_cast Nat.pos_of_ne_zero h
      rw [div_le_one hpos]
      have : 2 * matchSize a.data b.data ≤ a.data.length + b.data.length := by
        unfold matchSize; omega
      exact_mod_cast this

/-- Identical strings score exactly one. -/
theorem ratioQ_self (a : String) : ratioQ a a = 1 := by
  unfold ratioQ
  split
  · rfl
  · next h =>
      rw [matchSize_self]
      have hne : ((a.data.length + a.data.length : Nat) : ℚ) ≠ 0 := by
        exact_mod_cast h
      rw [div_eq_one_iff_eq hne]
      push_cast
      ring

/-- Membership in a descending insertion. -/
theorem mem_insertByScoreDesc (m x : FuzzyMatch) :
    ∀ l, x ∈ insertByScoreDesc m l ↔ x = m ∨ x ∈ l
  | [] => by simp [insertByScoreDesc]
  | y :: ys => by
      simp only [insertByScoreDesc]
      split
      · simp only [List.mem_cons]
      · simp only [List.mem_cons, mem_insertByScoreDesc m x ys]
        tauto

/-- Descending insertion preserves descending sortedness. -/
theorem pairwise_insertByScoreDesc (m : FuzzyMatch) :
    ∀ l, l.Pairwise scoreGE → (insertByScoreDesc m l).Pairwise scoreGE
  | [], _ => by simp [insertByScoreDesc]
  | y :: ys, h => by
      rw [List.pairwise_cons] at h
      simp only [insertByScoreDesc]
      split
      · next hlt =>
          rw [List.pairwise_cons]
          refine ⟨?_, List.pairwise_cons.mpr ⟨h.1, h.2⟩⟩
          intro z hz
          rcases List.mem_cons.mp hz with rfl | hz
          · exact le_of_lt hlt
          · exact le_trans (h.1 z hz) (le_of_lt hlt)
      · next hge =>
          rw [List.pairwise_cons]
          refine ⟨?_, pairwise_insertByScoreDesc m ys h.2⟩
          intro z hz
          rcases (mem_insertByScoreDesc m z ys).mp hz with rfl | hz
          · exact le_of_not_lt hge
          · exact h.1 z hz

/-- On a sorted list, descending insertion places the new element after all
equal scores: filtering any fixed score commutes with insertion up to
appending the new element. -/
theorem filter_insertByScoreDesc (m : FuzzyMatch) (s : ℚ) :
    ∀ l, l.Pairwise scoreGE →
      (insertByScoreDesc m l).filter (fun x => x.score == s)
        = l.filter (fun x => x.score == s) ++ (if m.score = s then [m] else [])
  | [], _ => by
      by_cases hms : m.score = s <;>
        simp [insertByScoreDesc, List.filter_cons, hms, beq_iff_eq]
  | y :: ys, h => by
      rw [List.pairwise_cons] at h
      simp only [insertByScoreDesc]
      split
      · next hlt =>
          by_cases hms : m.score = s
          · have hnil : (y :: ys).filter (fun x => x.score == s) = [] := by
              rw [List.filter_eq_nil_iff]
              intro z hz
              have hzle : z.score ≤ y.score := by
                rcases List.mem_cons.mp hz with rfl | hz
                · exact le_refl _
                · exact h.1 z hz
              have hzs : z.score < s := lt_of_le_of_lt hzle (hms ▸ hlt)
              simp [beq_iff_eq, ne_of_lt hzs]
            simp [List.filter_cons, hms, hnil, beq_iff_eq]
          · simp [List.filter_cons, hms, beq_iff_eq]
      · next hge =>
          have ih := filter_insertByScoreDesc m s ys h.2
          by_cases hys : y.score = s <;>
            simp [List.filter_cons, hys, ih, beq_iff_eq]

/-- The insertion-sort fold is sorted, permutes its input, and keeps each
score class in input order. -/
theorem sortFold_props :
    ∀ (l acc : List FuzzyMatch), acc.Pairwise scoreGE →
      ((l.foldl (fun a m => insertByScoreDesc m a) acc).Pairwise scoreGE ∧
       (∀ x, x ∈ l.foldl (fun a m => insertByScoreDesc m a) acc ↔
          x ∈ acc ∨ x ∈ l) ∧
       (∀ s, (l.foldl (fun a m => insertByScoreDesc m a) acc).filter
            (fun x => x.score == s)
          = acc.filter (fun x => x.score == s) ++
            l.filter (fun x => x.score == s)))
  | [], acc, h => by simp [h]
  | m :: t, acc, h => by
      obtain ⟨ih1, ih2, ih3⟩ :=
        sortFold_props t (insertByScoreDesc m acc)
          (pairwise_insertByScoreDesc m acc h)
      simp only [List.foldl_cons]
      refine ⟨ih1, ?_, ?_⟩
      · intro x
        rw [ih2 x, mem_insertByScoreDesc, List.mem_cons]
        tauto
      · intro s
        rw [ih3 s, filter_insertByScoreDesc m s acc h]
        by_cases hms : m.score = s
        · simp [List.filter_cons, hms, beq_iff_eq]
        · simp [List.filter_cons, hms, beq_iff_eq]

/-- Membership in the unsorted match list built by the source's loop. -/
theorem mem_rawFuzzyMatches (contacts : List (String × ContactInfo))
    (name : String) (threshold : ℚ) (x : FuzzyMatch) :
    x ∈ rawFuzzyMatches contacts name threshold ↔
      ∃ did info, (did, info) ∈ contacts ∧
        x = ⟨did, info.name, ratioQ (lowerStr name) (lowerStr info.name)⟩ ∧
        threshold ≤ ratioQ (lowerStr name) (lowerStr info.name) := by
  unfold rawFuzzyMatches
  rw [List.mem_filterMap]
  constructor
  · rintro ⟨⟨did, info⟩, hmem, hf⟩
    dsimp only at hf
    by_cases hth : threshold ≤ ratioQ (lowerStr name) (lowerStr info.name)
    · rw [if_pos hth] at hf
      injection hf with hf2
      exact ⟨did, info, hmem, hf2.symm, hth⟩
    · rw [if_neg hth] at hf
      cases hf
  · rintro ⟨did, info, hmem, rfl, hth⟩
    refine ⟨(did, info), hmem, ?_⟩
    dsimp only
    rw [if_pos hth]

/-- Evaluation of the spec's example book at query "Alice", threshold 0.6. -/
theorem c7demo_fuzzy_result :
    find_contacts_fuzzy demoBook "Alice" (3 / 5)
      = [⟨"did:key:ed25519:A1", "Alice", 1⟩,
         ⟨"did:key:ed25519:A2", "Alicia", 8 / 11⟩] := by
  have hAA : ratioQ (lowerStr "Alice") (lowerStr "Alice") = 1 :=
    ratioQ_self (lowerStr "Alice")
  have hAB : ratioQ (lowerStr "Alice") (lowerStr "Alicia") = 8 / 11 := by
    have hm : matchSize (lowerStr "Alice").data (lowerStr "Alicia").data = 4 := by
      decide
    have h5 : (lowerStr "Alice").data.length = 5 := by decide
    have h6 : (lowerStr "Alicia").data.length = 6 := by decide
    unfold ratioQ
    rw [h5, h6, hm]
    rw [if_neg (by norm_num)]
    norm_num
  have hBB : ratioQ (lowerStr "Alice") (lowerStr "Bob") = 0 := by
    have hm : matchSize (lowerStr "Alice").data (lowerStr "Bob").data = 0 := by
      decide
    have h5 : (lowerStr "Alice").data.length = 5 := by decide
    have h3 : (lowerStr "Bob").data.length = 3 := by decide
    unfold ratioQ
    rw [h5, h3, hm]
    rw [if_neg (by norm_num)]
    norm_num
  norm_num [find_contacts_fuzzy, rawFuzzyMatches, demoBook, sortByScoreDesc,
    insertByScoreDesc, List.filterMap_cons, List.filterMap_nil, hAA, hAB, hBB]

/-- C7: the fuzzy lookup returns exactly the contacts whose similarity ratio
with the query reaches the threshold, sorted descending by score with equal
scores kept in insertion order; scores lie in `[0, 1]` with identical strings
scoring 1; on the example book, "Alice" at threshold 0.6 returns Alice first
with score 1, Alicia second with score 8/11 strictly between 0.6 and 1, and
excludes Bob. -/
theorem c7_fuzzy_lookup_contract (contacts : List (String × ContactInfo))
    (q : String) (t : ℚ) :
    (∀ x, x ∈ find_contacts_fuzzy contacts q t ↔
       ∃ did info, (did, info) ∈ contacts ∧
         x = ⟨did, info.name, ratioQ (lowerStr q) (lowerStr info.name)⟩ ∧
         t ≤ x.score) ∧
    (find_contacts_fuzzy contacts q t).Pairwise scoreGE ∧
    (∀ s : ℚ, (find_contacts_fuzzy contacts q t).filter (fun x => x.score == s)
       = (rawFuzzyMatches contacts q t).filter (fun x => x.score == s)) ∧
    (∀ a b : String, 0 ≤ ratioQ a b ∧ ratioQ a b ≤ 1) ∧
    (∀ a : String, ratioQ a a = 1) ∧
    (find_contacts_fuzzy demoBook "Alice" (3 / 5)
       = [⟨"did:key:ed25519:A1", "Alice", 1⟩,
          ⟨"did:key:ed25519:A2", "Alicia", 8 / 11⟩] ∧
     (3 : ℚ) / 5 < 8 / 11 ∧ (8 : ℚ) / 11 < 1) := by
  obtain ⟨hsort, hmem, hfil⟩ :=
    sortFold_props (rawFuzzyMatches contacts q t) [] List.Pairwise.nil
  refine ⟨?_, hsort, ?_, ?_, ratioQ_self,
    c7demo_fuzzy_result, by norm_num, by norm_num⟩
  · intro x
    constructor
    · intro hx
      have hxr : x ∈ rawFuzzyMatches contacts q t := by
        rcases (hmem x).mp hx with h | h
        · cases h
        · exact h
      obtain ⟨did, info, hc, hxe, hth⟩ :=
        (mem_rawFuzzyMatches contacts q t x).mp hxr
      refine ⟨did, info, hc, hxe, ?_⟩
      rw [hxe]
      exact hth
    · rintro ⟨did, info, hc, rfl, hth⟩
      exact (hmem _).mpr (Or.inr
        ((mem_rawFuzzyMatches contacts q t _).mpr ⟨did, info, hc, rfl, hth⟩))
  · intro s
    simpa using hfil s
  · intro a b
    exact ⟨ratioQ_nonneg a b, ratioQ_le_one a b⟩

/-- C5: lock semantics — on an empty store, acquisition exclusively creates
the lock file containing the caller's pid and succeeds; on an existing lock
with a live recorded process it fails and leaves the lock intact; on an
existing lock with a dead recorded process it deletes the stale lock, retries
once and succeeds; release deletes the lock file unconditionally. -/
theorem c5_lock_semantics (alive : Nat → Bool) (pid p : Nat) (st : LockState)
    (c : String) :
    (st.lock = none →
       LockFile.acquire alive pid st = .ok (true, ⟨some (toString pid)⟩)) ∧
    (st.lock = some c → parsePid c = some p → alive p = true →
       LockFile.acquire alive pid st = .ok (false, st)) ∧
    (st.lock = some c → parsePid c = some p → alive p = false →
       LockFile.acquire alive pid st = .ok (true, ⟨some (toString pid)⟩)) ∧
    LockFile.release st = ⟨none⟩ := by
  obtain ⟨lck⟩ := st
  refine ⟨?_, ?_, ?_, rfl⟩
  · intro h
    obtain rfl : lck = none := h
    simp [LockFile.acquire]
  · intro h hp ha
    obtain rfl : lck = some c := h
    simp [LockFile.acquire, hp, ha]
  · intro h hp ha
    obtain rfl : lck = some c := h
    simp [LockFile.acquire, hp, ha]

/-- Witness for C5 at concrete pids and lock contents. -/
theorem c5_lock_semantics_witness :
    LockFile.acquire (fun q => q == 3) 9 ⟨none⟩ = .ok (true, ⟨some "9"⟩) ∧
    LockFile.acquire (fun q => q == 3) 9 ⟨some "3"⟩ = .ok (false, ⟨some "3"⟩) ∧
    LockFile.acquire (fun q => q == 3) 9 ⟨some "4"⟩ = .ok (true, ⟨some "9"⟩) ∧
    LockFile.release ⟨some "3"⟩ = ⟨none⟩ :=
  ⟨(c5_lock_semantics (fun q => q == 3) 9 0 ⟨none⟩ "").1 rfl,
   (c5_lock_semantics (fun q => q == 3) 9 3 ⟨some "3"⟩ "3").2.1 rfl (by decide)
     (by decide),
   (c5_lock_semantics (fun q => q == 3) 9 4 ⟨some "4"⟩ "4").2.2.1 rfl (by decide)
     (by decide),
   (c5_lock_semantics (fun q => q == 3) 9 0 ⟨some "3"⟩ "").2.2.2⟩

/-- C3: the registration gate on /send is dead code — with the directory
reachable and the local DID absent from it, the gate body does raise
HTTPException(403) with the register-first guidance, but the blanket
`except Exception: pass` swallows it and the send proceeds; the message is
sent, not rejected. (The fail-open half of the claim, directory unreachable
⇒ send proceeds, also evaluates to a sent message.) -/
theorem c3_registration_gate_bypassed :
    (registrationGateBody (.ok (some [⟨"did:key:ed25519:OTHER", "@other"⟩]))
        "did:key:ed25519:SELF"
      = .error (.httpException 403
          "You must register a username before sending messages. Use: agentctl register @yourname")) ∧
    (send_message_endpoint
        ⟨"did:key:ed25519:SELF", some (),
          [("did:key:ed25519:BBBB", ⟨"Bob"⟩)], []⟩
        ⟨some "did:key:ed25519:BBBB", none, "hello"⟩
        (.ok (some [⟨"did:key:ed25519:OTHER", "@other"⟩])) true
      = .sent "did:key:ed25519:BBBB" none) ∧
    (send_message_endpoint
        ⟨"did:key:ed25519:SELF", some (),
          [("did:key:ed25519:BBBB", ⟨"Bob"⟩)], []⟩
        ⟨some "did:key:ed25519:BBBB", none, "hello"⟩
        (.error ()) true
      = .sent "did:key:ed25519:BBBB" none) := by
  exact ⟨rfl, rfl, rfl⟩

/-- One frame of the receive loop never touches the connection handle, the
contact book or the identity. -/
theorem listenStep_preserves (L : EnvLib) (st : AgentSt) (f : RelayFrame) :
    (listenStep L st f).websocket = st.websocket ∧
    (listenStep L st f).contacts = st.contacts := by
  cases f with
  | errorFrame m => exact ⟨rfl, rfl⟩
  | otherFrame => exact ⟨rfl, rfl⟩
  | messageFrame sender content ts =>
      cases hd : plainDecode L content <;> simp [listenStep, hd]

/-- The receive loop never touches the connection handle or the contact
book, however many frames arrive before the stream closes. -/
theorem listen_preserves (L : EnvLib) :
    ∀ (frames : List RelayFrame) (st : AgentSt),
      (listen L st frames).websocket = st.websocket ∧
      (listen L st frames).contacts = st.contacts
  | [], _ => ⟨rfl, rfl⟩
  | f :: t, st => by
      have h1 := listenStep_preserves L st f
      have h2 := listen_preserves L t (listenStep L st f)
      exact ⟨h2.1.trans h1.1, h2.2.trans h1.2⟩

/-- C4 counterexample: after a session that receives (and saves) a message
and then hits stream closure, the daemon still reports `connected = true`,
and a subsequent /send is not refused as not-connected (it proceeds and fails
in transport instead) — the state did not become Disconnected. -/
theorem c4_disconnect_counterexample :
    status_connected
        (listen toyLib ⟨"did:key:ed25519:ME", some (), [], []⟩
          [RelayFrame.messageFrame "did:key:ed25519:PEER" "aGk=" (some "t")])
      = true ∧
    (listen toyLib ⟨"did:key:ed25519:ME", some (), [], []⟩
        [RelayFrame.messageFrame "did:key:ed25519:PEER" "aGk=" (some "t")]).savedMessages
      = [("did:key:ed25519:PEER", "hi", some "t")] ∧
    send_message_endpoint
        (listen toyLib ⟨"did:key:ed25519:ME", some (), [], []⟩
          [RelayFrame.messageFrame "did:key:ed25519:PEER" "aGk=" (some "t")])
        ⟨some "x", none, "m"⟩ (.error ()) true
      ≠ SendOutcome.notConnected := by
  refine ⟨rfl, rfl, ?_⟩
  decide

/-- C4 (amended): unexpected stream closure is NOT a state transition — the
receive loop exits leaving `websocket` (hence the status report and the
not-connected send guard) exactly as before; there is no automatic reconnect
(the handle is never replaced by the loop); only the explicit /disconnect
endpoint moves the state to disconnected. -/
theorem c4_stream_closure_behavior (L : EnvLib) (st : AgentSt)
    (frames : List RelayFrame) :
    (listen L st frames).websocket = st.websocket ∧
    status_connected (listen L st frames) = status_connected st ∧
    (listen L st frames).contacts = st.contacts ∧
    (disconnect_endpoint st).websocket = none := by
  obtain ⟨h1, h2⟩ := listen_preserves L frames st
  exact ⟨h1, by unfold status_connected; rw [h1], h2, rfl⟩

/-- The registration gate never propagates an exception. -/
theorem runRegistrationGate_ok (dirResp : Except Unit (Option (List DirEntry)))
    (d : String) : runRegistrationGate dirResp d = .ok () := by
  unfold runRegistrationGate
  cases h : registrationGateBody dirResp d with
  | ok u => cases u; rfl
  | error e => rfl

/-- On a connected daemon the /send endpoint reduces to recipient resolution
followed by the transport attempt (the gate has no effect). -/
theorem send_message_endpoint_eq (ag : AgentSt) (req : SendMessageRequest)
    (dirResp : Except Unit (Option (List DirEntry))) (transportOk : Bool)
    (hconn : ag.websocket = some ()) :
    send_message_endpoint ag req dirResp transportOk
      = match resolveRecipient ag req with
        | .error outcome => outcome
        | .ok recipientDid =>
            if agent_send ag recipientDid transportOk then
              .sent recipientDid req.to_name
            else .sendFailed := by
  have h1 : ag.websocket.isNone = false := by rw [hconn]; rfl
  simp [send_message_endpoint, h1, runRegistrationGate_ok]

/-- C8: name resolution on /send with `to_name` — a case-insensitive exact
display-name match sends to that contact's identifier (echoing the supplied
name); with no exact match but at least one fuzzy match at the default 0.6
threshold the endpoint answers 300 with at most three suggestions and does
not send; with no fuzzy match it answers 404 not-found and does not send. -/
theorem c8_name_resolution (ag : AgentSt) (req : SendMessageRequest)
    (dirResp : Except Unit (Option (List DirEntry))) (transportOk : Bool)
    (nm : String) (hconn : ag.websocket = some ())
    (hto : pyTruthy req.«to» = false) (hname : req.to_name = some nm)
    (hnm : nm ≠ "") :
    (∀ d, find_contact_by_name ag.contacts nm = some d →
       send_message_endpoint ag req dirResp transportOk
         = if agent_send ag d transportOk then .sent d (some nm)
           else .sendFailed) ∧
    (find_contact_by_name ag.contacts nm = none →
     find_contacts_fuzzy ag.contacts nm (3 / 5) ≠ [] →
       send_message_endpoint ag req dirResp transportOk
         = .ambiguousName
             (((find_contacts_fuzzy ag.contacts nm (3 / 5)).take 3).map
               formatSuggestion) ∧
       (((find_contacts_fuzzy ag.contacts nm (3 / 5)).take 3).map
           formatSuggestion).length ≤ 3 ∧
       (∀ d tn, send_message_endpoint ag req dirResp transportOk
          ≠ .sent d tn)) ∧
    (find_contact_by_name ag.contacts nm = none →
     find_contacts_fuzzy ag.contacts nm (3 / 5) = [] →
       send_message_endpoint ag req dirResp transportOk
         = .notFoundContact ("Contact not found: " ++ nm) ∧
       (∀ d tn, send_message_endpoint ag req dirResp transportOk
          ≠ .sent d tn)) := by
  have hEP := send_message_endpoint_eq ag req dirResp transportOk hconn
  refine ⟨?_, ?_, ?_⟩
  · intro d hfind
    have hres : resolveRecipient ag req = .ok d := by
      simp only [resolveRecipient, hto, hname]
      simp [pyTruthy, beq_iff_eq, hnm, hfind]
    rw [hEP, hres, hname]
  · intro hfind hfz
    obtain ⟨m, rest, hmr⟩ := List.exists_cons_of_ne_nil hfz
    have hres : resolveRecipient ag req
        = .error (.ambiguousName
            (((find_contacts_fuzzy ag.contacts nm (3 / 5)).take 3).map
              formatSuggestion)) := by
      rw [hmr]
      simp only [resolveRecipient, hto, hname]
      simp [pyTruthy, beq_iff_eq, hnm, hfind, hmr]
    rw [hEP, hres]
    refine ⟨rfl, ?_, ?_⟩
    · rw [List.length_map]
      exact le_trans (List.length_take_le 3 _) (le_refl 3)
    · intro d tn hc
      simp at hc
  · intro hfind hfz
    have hres : resolveRecipient ag req
        = .error (.notFoundContact ("Contact not found: " ++ nm)) := by
      simp only [resolveRecipient, hto, hname]
      simp [pyTruthy, beq_iff_eq, hnm, hfind, hfz]
    rw [hEP, hres]
    refine ⟨rfl, ?_⟩
    intro d tn hc
    simp at hc

/-- Witness for C8 on the example book: an exact match for "Alice" sends to
Alice's identifier and echoes the name. -/
theorem c8_name_resolution_witness :
    find_contact_by_name demoBook "Alice" = some "did:key:ed25519:A1" ∧
    send_message_endpoint ⟨"did:key:ed25519:ME", some (), demoBook, []⟩
        ⟨none, some "Alice", "yo"⟩ (.error ()) true
      = .sent "did:key:ed25519:A1" (some "Alice") := by
  refine ⟨by decide, ?_⟩
  have h := (c8_name_resolution ⟨"did:key:ed25519:ME", some (), demoBook, []⟩
      ⟨none, some "Alice", "yo"⟩ (.error ()) true "Alice" rfl rfl rfl
      (by decide)).1 "did:key:ed25519:A1" (by decide)
  rw [h, if_pos (by decide)]

/-- C10: when a request supplies both `to` (a nonempty identifier) and
`to_name`, the identifier is used verbatim as the recipient — resolution
ignores the contact book and whatever `to_name` holds — while the success
response echoes the supplied `to_name` unchanged. -/
theorem c10_to_precedence (ag : AgentSt) (req : SendMessageRequest)
    (dirResp : Except Unit (Option (List DirEntry))) (transportOk : Bool)
    (d : String) (hto : req.«to» = some d) (hd : d ≠ "")
    (hconn : ag.websocket = some ()) :
    resolveRecipient ag req = .ok d ∧
    (∀ altName, resolveRecipient ag { req with to_name := altName } = .ok d) ∧
    (agent_send ag d transportOk = true →
       send_message_endpoint ag req dirResp transportOk
         = .sent d req.to_name) := by
  have hres : resolveRecipient ag req = .ok d := by
    simp only [resolveRecipient, hto]
    simp [pyTruthy, beq_iff_eq, hd]
  refine ⟨hres, ?_, ?_⟩
  · intro altName
    simp only [resolveRecipient, hto]
    simp [pyTruthy, beq_iff_eq, hd]
  · intro hsend
    rw [send_message_endpoint_eq ag req dirResp transportOk hconn, hres]
    simp [hsend]

/-- Witness for C10: `to` pointing at Alicia's identifier wins over a
`to_name` of "Alice"; the response echoes the name unchanged. -/
theorem c10_to_precedence_witness :
    send_message_endpoint ⟨"did:key:ed25519:ME", some (), demoBook, []⟩
        ⟨some "did:key:ed25519:A2", some "Alice", "m"⟩ (.error ()) true
      = .sent "did:key:ed25519:A2" (some "Alice") :=
  (c10_to_precedence ⟨"did:key:ed25519:ME", some (), demoBook, []⟩
      ⟨some "did:key:ed25519:A2", some "Alice", "m"⟩ (.error ()) true
      "did:key:ed25519:A2" rfl (by decide) rfl).2.2 (by decide)

/-- C6 counterexample: filenames are NOT injective in (timestamp, sender) —
the distinct senders "did:a" and "did-a" collide under colon sanitization —
and lexicographic filename order does NOT agree with chronological timestamp
order: a timestamp extended by fractional seconds sorts after the plain one
chronologically, yet its filename sorts before (because the sanitized dot
`'-'` is smaller than the separator `'_'`). -/
theorem c6_filename_counterexample :
    (("did:a" : String) ≠ "did-a" ∧
      message_filename "2025-01-01T10:00:00" "did:a"
        = message_filename "2025-01-01T10:00:00" "did-a") ∧
    (("2025-01-01T10:00:00" : String) < "2025-01-01T10:00:00.5" ∧
      message_filename "2025-01-01T10:00:00.5" "x"
        < message_filename "2025-01-01T10:00:00" "x") := by
  refine ⟨⟨by decide, by decide⟩, ?_, ?_⟩
  · rw [String.lt_iff_toList_lt]; decide
  · rw [String.lt_iff_toList_lt]; decide

/-- Splitting a concatenation at a separator absent from both prefixes. -/
theorem append_sep_inj (sep : Char) :
    ∀ a1 a2 b1 b2 : List Char, sep ∉ a1 → sep ∉ a2 →
      a1 ++ sep :: b1 = a2 ++ sep :: b2 → a1 = a2 ∧ b1 = b2
  | [], [], b1, b2, _, _, h => ⟨rfl, by simpa using h⟩
  | [], c2 :: t2, b1, b2, _, h2, h => by
      simp only [List.nil_append, List.cons_append, List.cons.injEq] at h
      obtain ⟨rfl, -⟩ := h
      exact absurd (List.mem_cons_self _ _) h2
  | c1 :: t1, [], b1, b2, h1, _, h => by
      simp only [List.cons_append, List.nil_append, List.cons.injEq] at h
      obtain ⟨rfl, -⟩ := h
      exact absurd (List.mem_cons_self _ _) h1
  | c1 :: t1, c2 :: t2, b1, b2, h1, h2, h => by
      simp only [List.cons_append, List.cons.injEq] at h
      obtain ⟨hc, ht⟩ := h
      obtain ⟨ih1, ih2⟩ := append_sep_inj sep t1 t2 b1 b2
        (fun hm => h1 (List.mem_cons_of_mem _ hm))
        (fun hm => h2 (List.mem_cons_of_mem _ hm)) ht
      exact ⟨by rw [hc, ih1], ih2⟩

/-- The two sequential replaces of save_message act as one pointwise map. -/
theorem sanitizeTimestamp_data (t : String) :
    (sanitizeTimestamp t).data = t.data.map sanTsChar := by
  show (t.data.map fun c => if c = ':' then '-' else c).map
      (fun c => if c = '.' then '-' else c) = t.data.map sanTsChar
  rw [List.map_map]
  congr 1
  funext c
  by_cases hc : c = ':'
  · subst hc; decide
  · by_cases hd : c = '.'
    · subst hd; decide
    · simp [Function.comp, sanTsChar, hc, hd]

/-- Sanitization introduces no underscore. -/
theorem sanitizeTimestamp_no_underscore (t : String) (h : '_' ∉ t.data) :
    '_' ∉ (sanitizeTimestamp t).data := by
  rw [sanitizeTimestamp_data]
  intro hm
  obtain ⟨c, hc, he⟩ := List.mem_map.mp hm
  unfold sanTsChar at he
  split at he
  · exact absurd he (by decide)
  · exact h (he ▸ hc)

/-- Character sanitization preserves strict order at punctuation-aligned
positions. -/
theorem sanTsChar_lt (c1 c2 : Char)
    (halign : (tsPunct c1 ∨ tsPunct c2) → c1 = c2) (h : c1 < c2) :
    sanTsChar c1 < sanTsChar c2 := by
  have hne : ¬(tsPunct c1 ∨ tsPunct c2) := by
    intro hp
    rw [halign hp] at h
    exact lt_irrefl _ h
  unfold sanTsChar
  rw [if_neg (show ¬(c1 = ':' ∨ c1 = '.') from fun hp => hne (Or.inl hp)),
    if_neg (show ¬(c2 = ':' ∨ c2 = '.') from fun hp => hne (Or.inr hp))]
  exact h

/-- Order transfers through sanitization and arbitrary suffixes when the
compared lists are punctuation-aligned. -/
theorem list_lt_san_append :
    ∀ {a b : List Char},
      List.Forall₂ (fun c1 c2 => (tsPunct c1 ∨ tsPunct c2) → c1 = c2) a b →
      a < b →
      ∀ x y : List Char, (a.map sanTsChar ++ x) < (b.map sanTsChar ++ y) := by
  intro a b halign hlt
  have hlex : List.Lex (fun c1 c2 : Char => c1 < c2) a b := hlt
  clear hlt
  revert halign
  induction hlex with
  | nil =>
      intro halign
      cases halign
  | cons h ih =>
      intro halign x y
      cases halign with
      | cons hR hrest =>
          simp only [List.map_cons, List.cons_append]
          exact List.Lex.cons (ih hrest x y)
  | rel h =>
      intro halign x y
      cases halign with
      | cons hR hrest =>
          simp only [List.map_cons, List.cons_append]
          exact List.Lex.rel (sanTsChar_lt _ _ hR h)

/-- Character-level shape of a saved-message filename. -/
theorem message_filename_data (t s : String) :
    (message_filename t s).data
      = (sanitizeTimestamp t).data ++ '_' ::
        ((sanitizeSender s).data ++ ('.' :: 'j' :: 's' :: 'o' :: 'n' :: [])) := by
  show (sanitizeTimestamp t ++ "_" ++ sanitizeSender s ++ ".json").data = _
  simp [String.data_append, List.append_assoc]

/-- C6 (amended): the saved filename determines and is determined by the
sanitized pair — for timestamps without underscores, two messages share a
filename exactly when their sanitized timestamps and their colon-sanitized,
50-char-truncated senders coincide (so distinct pairs can collide, and
distinct sanitized components never do); and lexicographic filename order
agrees with timestamp order whenever the two timestamps are
punctuation-aligned (same positions for ':' and '.', as for fixed-format
ISO timestamps), regardless of the senders. -/
theorem c6_filename_characterization (t1 t2 s1 s2 : String)
    (h1 : '_' ∉ t1.data) (h2 : '_' ∉ t2.data) :
    (message_filename t1 s1 = message_filename t2 s2 ↔
       sanitizeTimestamp t1 = sanitizeTimestamp t2 ∧
       sanitizeSender s1 = sanitizeSender s2) ∧
    (List.Forall₂ (fun c1 c2 => (tsPunct c1 ∨ tsPunct c2) → c1 = c2)
        t1.data t2.data →
     t1 < t2 → message_filename t1 s1 < message_filename t2 s2) := by
  constructor
  · constructor
    · intro h
      have hd := congrArg String.data h
      rw [message_filename_data, message_filename_data] at hd
      obtain ⟨ha, hb⟩ := append_sep_inj '_' _ _ _ _
        (sanitizeTimestamp_no_underscore t1 h1)
        (sanitizeTimestamp_no_underscore t2 h2) hd
      exact ⟨String.ext ha, String.ext (List.append_cancel_right hb)⟩
    · rintro ⟨ha, hb⟩
      unfold message_filename
      rw [ha, hb]
  · intro halign hlt
    rw [String.lt_iff_toList_lt] at hlt ⊢
    simp only [String.toList] at hlt ⊢
    rw [message_filename_data, message_filename_data,
      sanitizeTimestamp_data t1, sanitizeTimestamp_data t2]
    exact list_lt_san_append halign hlt _ _

/-- Pointwise zip conditions build a Forall₂ for equal-length lists. -/
theorem forall₂_of_zip (R : Char → Char → Prop) :
    ∀ l1 l2 : List Char, l1.length = l2.length →
      (∀ p ∈ List.zip l1 l2, R p.1 p.2) → List.Forall₂ R l1 l2
  | [], [], _, _ => List.Forall₂.nil
  | a :: t1, b :: t2, hlen, hz => by
      refine List.Forall₂.cons (hz (a, b) (by simp)) ?_
      exact forall₂_of_zip R t1 t2 (by simpa using hlen)
        (fun p hp => hz p (by simp [hp]))
  | [], _ :: _, hlen, _ => by simp at hlen
  | _ :: _, [], hlen, _ => by simp at hlen

/-- Witness for the amended C6 at concrete timestamps and senders. -/
theorem c6_filename_characterization_witness :
    message_filename "2025-01-01T10:00:00" "did:key:x"
      < message_filename "2025-01-01T10:00:01" "did:key:x" :=
  (c6_filename_characterization "2025-01-01T10:00:00" "2025-01-01T10:00:01"
      "did:key:x" "did:key:x" (by decide) (by decide)).2
    (forall₂_of_zip _ _ _ (by decide) (by decide))
    (by rw [String.lt_iff_toList_lt]; decide)

end AgentMessenger
